import Mathlib

/-!
Verification of the jaffi Rust FFI binding generator against its
natural-language specification.  The definitions below are shallow
embeddings of the corresponding Rust functions in `src/lib.rs`,
`src/template.rs`, `src/ident.rs` and the `jaffi_support` crate;
each definition's doc comment names the Rust item it embeds.
-/

namespace Jaffi

/-! ## JNI ABI name escaping (`impl From<S> for JniAbi`, template.rs) -/

/-- The hex digits pushed for one escaped character: Rust
`ch.escape_unicode().skip(3).filter(|c| *c != '}')`, i.e. the minimal
lowercase hexadecimal digits of the char's Unicode scalar value. -/
def escapeUnicodeHex (ch : Char) : String :=
  String.mk (Nat.toDigits 16 ch.toNat)

/-- One iteration of the `for ch in name.chars()` loop of
`impl From<S> for JniAbi` (template.rs): pushes the escape of `ch`
onto the accumulator `abi`. -/
def jniAbiStep (abi : String) (ch : Char) : String :=
  if ch = '.' ∨ ch = '/' then abi.push '_'
  else if ch = '_' then abi ++ "_1"
  else if ch = ';' then abi ++ "_2"
  else if ch = '[' then abi ++ "_3"
  else if ch.isAlphanum then abi.push ch
  else abi ++ "_0" ++ escapeUnicodeHex ch

/-- `JniAbi::from(name)` (template.rs): escape a name for the JNI ABI by
folding `jniAbiStep` over the characters of `name`. -/
def jniAbiFrom (name : String) : String :=
  name.data.foldl jniAbiStep ""

/-- The UTF-16 code units of one character: itself for a BMP scalar,
the surrogate pair for a supplementary scalar.  Used only to state what
the claim (and the JNI specification quoted in the source's own doc
comment) prescribes; the source has no counterpart. -/
def utf16CodeUnits (ch : Char) : List Nat :=
  if ch.toNat < 0x10000 then [ch.toNat]
  else [0xD800 + (ch.toNat - 0x10000) / 0x400, 0xDC00 + (ch.toNat - 0x10000) % 0x400]

/-- The escape of one character as the claim words it: alphanumerics
unchanged, the special characters by their table, and every other
character `_0` followed by lowercase hex digits of each of its UTF-16
code units (the JNI rule escapes the two units of a surrogate pair
separately).  This is the claim-side definition, to be compared with
`jniAbiFrom`. -/
def claimEscapeChar (ch : Char) : String :=
  if ch = '.' ∨ ch = '/' then "_"
  else if ch = '_' then "_1"
  else if ch = ';' then "_2"
  else if ch = '[' then "_3"
  else if ch.isAlphanum then String.mk [ch]
  else String.join ((utf16CodeUnits ch).map
    (fun u => "_0" ++ String.mk (Nat.toDigits 16 u)))

/-! ## Identifier sanitizing (`make_ident`, ident.rs) -/

/-- `KEYWORDS` (ident.rs): the Rust keywords emitted in raw form. -/
def KEYWORDS : List String :=
  ["as", "async", "await", "break", "const", "continue", "crate", "dyn",
   "else", "enum", "extern", "false", "fn", "for", "if", "impl", "in",
   "let", "loop", "match", "mod", "move", "mut", "pub", "ref", "return",
   "self", "static", "struct", "trait", "true", "type", "union", "unsafe",
   "use", "where", "while"]

/-- `ILLEGAL_WORDS` (ident.rs): words that cannot be raw identifiers. -/
def ILLEGAL_WORDS : List String :=
  ["_", "super", "self", "Self", "crate", ""]

/-- `contains_keyword` (ident.rs). -/
def containsKeyword (s : String) : Bool := KEYWORDS.contains s

/-- `is_illegal` (ident.rs). -/
def isIllegal (s : String) : Bool := ILLEGAL_WORDS.contains s

/-- `make_ident` (ident.rs): illegal words are prefixed with `r_`,
remaining keywords are emitted as raw `r#` identifiers, everything else
is unchanged.  The produced `Ident` is represented by its text. -/
def makeIdent (ident : String) : String :=
  if isIllegal ident then "r_" ++ ident
  else if containsKeyword ident then "r#" ++ ident
  else ident

/-! ## Java descriptors (`JavaDesc`, template.rs) -/

/-- `JavaDesc::from(String)` (template.rs): normalize a descriptor to
internal form by replacing each `.` with `/`. -/
def mkJavaDesc (s : String) : String :=
  String.mk (s.data.map (fun c => if c = '.' then '/' else c))

/-- `JavaDesc::escape_for_extern_fn` (template.rs): replace each `/`
with `_`. -/
def escapeForExternFn (d : String) : String :=
  String.mk (d.data.map (fun c => if c = '/' then '_' else c))

/-- `JavaDesc::class_name` (template.rs): the final component of the
`/`-separated descriptor (`String` for `java/lang/String`): the last
element of `split('/')` is the suffix after the last `/`, the whole
string when there is none. -/
def descClassName (d : String) : String :=
  String.mk ((d.data.reverse.takeWhile (fun c => c ≠ '/')).reverse)

/-! ## The type model (template.rs) -/

/-- `ObjectType` (template.rs). -/
inductive ObjectType
  | jClass
  | jByteBuffer
  | jObject
  | jString
  | jThrowable
  | object (desc : String)
deriving DecidableEq, Repr

/-- `impl From<&JavaDesc> for ObjectType` (template.rs): classify a
descriptor as one of the well-known runtime types or a user object. -/
def objectTypeFrom (d : String) : ObjectType :=
  if d = "java/lang/Class" then .jClass
  else if d = "java/nio/ByteBuffer" then .jByteBuffer
  else if d = "java/lang/Object" then .jObject
  else if d = "java/lang/String" then .jString
  else if d = "java/lang/Throwable" then .jThrowable
  else .object d

/-- `BaseJniTy` (template.rs). -/
inductive BaseJniTy
  | jbyte
  | jchar
  | jdouble
  | jfloat
  | jint
  | jlong
  | jshort
  | jboolean
  | jobject (o : ObjectType)
deriving DecidableEq, Repr

/-- `JavaArray` (template.rs). -/
structure JavaArray where
  dimensions : Nat
  ty : BaseJniTy
deriving DecidableEq, Repr

/-- `JniType` (template.rs). -/
inductive JniType
  | ty (t : BaseJniTy)
  | jarray (a : JavaArray)
deriving DecidableEq, Repr

/-- `Return` (template.rs). -/
inductive JniReturn
  | void
  | val (t : JniType)
deriving DecidableEq, Repr

/-- `JavaArray::to_jni_type_name` (template.rs lines 801-810): only the
1-dimensional byte array is supported at the FFI boundary; every other
array shape becomes the explicit unsupported placeholder. -/
def JavaArray.toJniTypeName (a : JavaArray) : String :=
  if a.dimensions ≠ 1 then "jaffi_support::arrays::UnsupportedArray<'j>"
  else
    match a.ty with
    | .jbyte => "jaffi_support::arrays::JavaByteArray<'j>"
    | _ => "jaffi_support::arrays::UnsupportedArray<'j>"

/-- `JavaArray::to_rs_type_name` (template.rs lines 812-814). -/
def JavaArray.toRsTypeName (a : JavaArray) : String :=
  a.toJniTypeName

/-! ## The parsed class-file descriptor model (cafebabe output, as the
source consumes it in `JniType::from_java` and `Return::from_java`) -/

/-- cafebabe `BaseType`. -/
inductive BaseType
  | byte | char | double | float | int | long | short | boolean
deriving DecidableEq, Repr

/-- cafebabe `Ty`: a base type or an object reference by name. -/
inductive CafeTy
  | base (b : BaseType)
  | objectRef (name : String)
deriving DecidableEq, Repr

/-- cafebabe `FieldType`. -/
inductive FieldType
  | ty (t : CafeTy)
  | array (dimensions : Nat) (ty : CafeTy)
deriving DecidableEq, Repr

/-- cafebabe `ReturnDescriptor`. -/
inductive ReturnDescriptor
  | void
  | ret (f : FieldType)
deriving DecidableEq, Repr

/-- `base_jni_ty_from_java` (template.rs, inside `JniType::from_java`). -/
def baseJniTyFromJava : CafeTy → BaseJniTy
  | .base .byte => .jbyte
  | .base .char => .jchar
  | .base .double => .jdouble
  | .base .float => .jfloat
  | .base .int => .jint
  | .base .long => .jlong
  | .base .short => .jshort
  | .base .boolean => .jboolean
  | .objectRef obj => .jobject (objectTypeFrom (mkJavaDesc obj))

/-- `JniType::from_java` (template.rs). -/
def JniType.fromJava : FieldType → JniType
  | .ty t => .ty (baseJniTyFromJava t)
  | .array dimensions t => .jarray ⟨dimensions, baseJniTyFromJava t⟩

/-- `Return::from_java` (template.rs). -/
def returnFromJava : ReturnDescriptor → JniReturn
  | .void => .void
  | .ret f => .val (JniType.fromJava f)

/-! ## Function extraction (`extract_function_info`, lib.rs) -/

/-- The fields of a cafebabe `MethodInfo` that `extract_function_info`
reads: the method name, the printed descriptor string, and the parsed
return descriptor. -/
structure MethodSig where
  name : String
  descriptorStr : String
  result : ReturnDescriptor
deriving DecidableEq, Repr

/-- The export-name key of a method (lib.rs lines 346-350 and 414-418):
a constructor `<init>` is renamed to `new_<this_class>`; other methods
keep their name. -/
def methodKey (thisClass : String) (m : MethodSig) : String :=
  if m.name = "<init>" then "new_" ++ thisClass else m.name

/-- The occurrence count of one export-name key over the selected
methods (lib.rs lines 344-354, the `method_names` fold). -/
def nameCount (thisClass : String) (ms : List MethodSig) (k : String) : Nat :=
  (ms.map (methodKey thisClass)).count k

/-- The descriptor slice taken by `FuncAbi::with_descriptor`
(template.rs lines 923-935): strip a leading `(` and keep everything up
to the first `)` (the whole rest when there is none). -/
def stripParamDescriptor (d : String) : String :=
  let d1 := match d.data with
    | '(' :: rest => rest
    | l => l
  String.mk (d1.takeWhile (fun c => c ≠ ')'))

/-- `FuncAbi::with_descriptor` (template.rs): append two underscores and
the escaped parameter-descriptor slice. -/
def withDescriptor (f : String) (d : String) : String :=
  f ++ "__" ++ jniAbiFrom (stripParamDescriptor d)

/-- `FuncAbi::with_class` (template.rs lines 915-921): prepend `Java_`,
the class descriptor escaped for an `extern` function name, and `_`. -/
def withClass (f : String) (cls : String) : String :=
  "Java_" ++ escapeForExternFn cls ++ "_" ++ f

/-- `fn_ffi_name` of one method (lib.rs lines 419-429): the short
ABI-escaped key when its occurrence count is 1, the long form with the
escaped parameter descriptor when the key is shared.  `thisClass` is the
class descriptor in internal (slash) form. -/
def fnFfiName (thisClass : String) (ms : List MethodSig) (m : MethodSig) : String :=
  let key := methodKey thisClass m
  if nameCount thisClass ms key > 1 then
    withDescriptor (jniAbiFrom key) (mkJavaDesc m.descriptorStr)
  else
    jniAbiFrom key

/-- `fn_export_ffi_name` of one method (lib.rs lines 430-434). -/
def fnExportFfiName (thisClass : String) (ms : List MethodSig) (m : MethodSig) : String :=
  withClass (fnFfiName thisClass ms m) thisClass

/-- The synthesized result of one method (lib.rs lines 386-392): a
non-constructor keeps its parsed return descriptor; a constructor gets
an object reference to the declaring class. -/
def resultOf (thisClass : String) (m : MethodSig) : JniReturn :=
  if m.name ≠ "<init>" then returnFromJava m.result
  else .val (.ty (.jobject (objectTypeFrom thisClass)))

/-- The parameter-descriptor slice as the claim words it: the text
strictly between the signature's opening parenthesis and first closing
parenthesis.  Claim-side definition, compared with
`stripParamDescriptor`. -/
def claimParamSlice (d : String) : String :=
  String.mk (((d.data.dropWhile (fun c => c ≠ '(')).drop 1).takeWhile (fun c => c ≠ ')'))

/-! ## Exception generation (`generate_exceptions`, template.rs, and
`Throwable` in jaffi_support/src/exceptions.rs) -/

/-- `exception_name_from_set` (template.rs lines 288-297): concatenate
the class names of the set's members (in the `BTreeSet` order of the
given list) and append `Err`, through `make_ident`. -/
def exceptionNameFromSet (exceptions : List String) : String :=
  makeIdent ((exceptions.foldl (fun acc ex => acc ++ descClassName ex) "") ++ "Err")

/-- The variant list generated for one combined-exception enum by
`generate_exceptions` (template.rs lines 338-350).  The source iterates
`exception_sets` — the whole collection of sets — rather than the
current `exception_set`, so every enum receives the members of every
set. -/
def generatedEnumVariants (exceptionSets : List (List String)) : List String :=
  (exceptionSets.flatMap (fun s => s)).map descClassName

/-- The combined-exception enums generated by `generate_exceptions`
(template.rs lines 336-382): for each set, the enum name from
`exception_name_from_set` and its variant list. -/
def generatedExceptionEnums (exceptionSets : List (List String)) :
    List (String × List String) :=
  exceptionSets.map (fun s => (exceptionNameFromSet s, generatedEnumVariants exceptionSets))

/-- The variant list the claim prescribes for one set: exactly one
variant per member exception of that set.  Claim-side definition,
compared with `generatedEnumVariants`. -/
def claimEnumVariants (exceptionSet : List String) : List String :=
  exceptionSet.map descClassName

/-- Per-marker `Throwable::catch` of a generated exception marker type
(template.rs lines 324-330): `Ok(Self)` when the throwable is non-null
and an instance of the marker's exception class, `Err(throwable)` with
the same throwable otherwise.  The JNI environment is modelled by the
oracles `isNull` and `isInstanceOf`; `T` is the type of throwable
object references. -/
def markerCatch {T : Type} (isNull : T → Bool) (isInstanceOf : T → String → Bool)
    (exClassName : String) (throwable : T) : Except T Unit :=
  if !isNull throwable && isInstanceOf throwable exClassName then .ok ()
  else .error throwable

/-- Combined `Throwable::catch` of a generated exception sum type
(template.rs lines 366-379): try each variant's marker catch in the
fixed `ALL_EXCEPTIONS` enumeration order, return the first matching
variant, and fall through to `Err(throwable)` with the original
throwable. -/
def combinedCatch {T : Type} (isNull : T → Bool) (isInstanceOf : T → String → Bool)
    (variants : List String) (throwable : T) : Except T String :=
  match variants with
  | [] => .error throwable
  | c :: cs =>
    match markerCatch isNull isInstanceOf c throwable with
    | .ok _ => .ok c
    | .error _ => combinedCatch isNull isInstanceOf cs throwable

/-! ## Classpath search (`search_classpath` and `class_to_path`, lib.rs) -/

/-- `class_to_path` (lib.rs lines 494-497): replace `.` by `/` and add
the `.class` extension.  (`PathBuf::with_extension` appends the
extension here, since the replaced name contains no `.`.) -/
def classToPath (name : String) : String :=
  mkJavaDesc name ++ ".class"

/-- The file system as `search_classpath` observes it: whether a path is
a directory, whether it is a file, and its `extension()` (empty when
none, per `unwrap_or_default`). -/
structure FsModel where
  isDir : String → Bool
  isFile : String → Bool
  ext : String → String

/-- `Path::join` for the paths the search builds. -/
def joinPath (a b : String) : String := a ++ "/" ++ b

/-- `lookup_from_path` (lib.rs lines 499-503). -/
def lookupFromPath (fs : FsModel) (classpath cls : String) : Bool :=
  fs.isFile (joinPath classpath cls)

/-- How a classpath search fails: no root contains the class file, or a
jar root is hit (`unimplemented!`, a panic in the source). -/
inductive SearchError
  | notFound (msg : String)
  | jarUnimplemented (root : String)
deriving DecidableEq, Repr

/-- The `'search` loop of `search_classpath` (lib.rs lines 165-179) for
one class file path: the first root that is a directory containing the
file wins; a jar-file root aborts; other roots are skipped. -/
def searchRoots (fs : FsModel) (cls : String) :
    List String → Except SearchError (Option String)
  | [] => .ok none
  | root :: rest =>
    if fs.isDir root && lookupFromPath fs root cls then .ok (some (joinPath root cls))
    else if fs.isFile root && fs.ext root = "jar" then .error (.jarUnimplemented root)
    else searchRoots fs cls rest

/-- The default classpath used when the configured list is empty
(lib.rs lines 153-158). -/
def defaultClasspath : List String := ["."]

/-- `search_classpath` (lib.rs lines 152-190): for each class in order,
scan the effective classpath roots and collect the first hit, failing
the whole run when one class is found in no root. -/
def searchClasspath (fs : FsModel) (classpath : List String) :
    List String → Except SearchError (List String)
  | [] => .ok []
  | cls :: rest =>
    let cp := if classpath.isEmpty then defaultClasspath else classpath
    let clsPath := classToPath cls
    match searchRoots fs clsPath cp with
    | .error e => .error e
    | .ok (some found) =>
      match searchClasspath fs classpath rest with
      | .error e => .error e
      | .ok founds => .ok (found :: founds)
    | .ok none => .error (.notFound ("could not find class in classpath: " ++ clsPath))

/-! ## The type-closure resolver (`generate_support_types`, lib.rs) -/

/-- What `generate_support_types` observes of the world: whether a
descriptor is in the wrap set (`classes_to_wrap ∪ native_classes`), and
— from locating and parsing its class file — the object types referenced
by its extracted methods and its supertype/interface descriptors. -/
structure ResolverEnv where
  wrap : String → Bool
  newTypes : String → List String
  interfaces : String → List String

/-- The mutable state of the `while let Some(..) = pop()` loop of
`generate_support_types` (lib.rs lines 254-329): the work stack
(`search_object_types`, head = top), the known-type set `types`, the
`already_generated` set, and the descriptors of the `Object` records
pushed so far, in push order. -/
structure ResolverState where
  stack : List String
  types : List String
  generated : List String
  out : List String

/-- The `for ty in new_types` loop (lib.rs lines 296-301): each type not
yet in the known-type set is added to it and pushed onto the work
stack.  The accumulator pairs the known-type set with the stack. -/
def addNewTypes (l : List String) (acc : List String × List String) :
    List String × List String :=
  l.foldl (fun acc ty => if ty ∈ acc.1 then acc else (ty :: acc.1, ty :: acc.2)) acc

/-- The `for interface in super_class ∪ interfaces` loop (lib.rs lines
304-319): each interface already in the known-type set is pushed back
onto the work stack. -/
def pushKnownIfaces (l : List String) (types sk : List String) : List String :=
  l.foldl (fun sk i => if i ∈ types then i :: sk else sk) sk

/-- The body of one processed (non-skipped) iteration (lib.rs lines
273-324): when the descriptor is wrapped, add each newly referenced type
to `types` and push it, then push every interface already in `types`.
Returns the updated `types` and stack. -/
def resolveStep (env : ResolverEnv) (d : String) (rest types : List String) :
    List String × List String :=
  if env.wrap d then
    let tyStack := addNewTypes (env.newTypes d) (types, rest)
    (tyStack.1, pushKnownIfaces (env.interfaces d) tyStack.1 tyStack.2)
  else (types, rest)

/-- The worklist loop of `generate_support_types`, with explicit fuel:
pop a descriptor, skip it when already generated, otherwise mark it
generated, process it and append its `Object` record.  `none` means the
fuel ran out (the claims prove enough fuel always exists). -/
def resolveLoop (env : ResolverEnv) : Nat → ResolverState → Option (List String)
  | 0, _ => none
  | n + 1, st =>
    match st.stack with
    | [] => some st.out
    | d :: rest =>
      if d ∈ st.generated then
        resolveLoop env n { st with stack := rest }
      else
        let tyStack := resolveStep env d rest st.types
        resolveLoop env n
          { stack := tyStack.2, types := tyStack.1,
            generated := d :: st.generated, out := st.out ++ [d] }

/-- `generate_support_types` (lib.rs lines 254-266): the initial state
seeds both the work stack and the known-type set with the argument
types, with nothing generated yet. -/
def initialResolverState (seeds : List String) : ResolverState :=
  { stack := seeds, types := seeds, generated := [], out := [] }

/-- Termination measure for the worklist loop over a finite universe
`U` of descriptors whose per-descriptor pushes are bounded by `B`: the
number of not-yet-generated universe members weighted by `B + 1`, plus
the stack length.  Verification apparatus, not part of the source. -/
def resolveMeasure (U : List String) (B : Nat) (st : ResolverState) : Nat :=
  (U.toFinset \ st.generated.toFinset).card * (B + 1) + st.stack.length

/-! ## The library-load hook (`generate_java_ffi`) -/

/-- One action of the generated `JNI_OnLoad` entry point. -/
inductive OnLoadStmt
  | registerPanicHook
  | callUserFn (name : String)
deriving DecidableEq, Repr

/-- Modelled from the spec: the body of the generated `JNI_OnLoad`.
The version of `generate_java_ffi` that consumes the configured
`user_on_load_fn` is missing from the sources (lib.rs lines 138-143
passes it as a fourth argument, and the builder field at lib.rs lines
67-71 documents it, but the `template.rs` present defines only a
three-argument `generate_java_ffi`).  Per the spec, the load entry point
registers the panic handler, and the optional load-hook function, when
one is configured, is invoked once at library load with no way to signal
an error back (the statement constructor carries no error channel). -/
def generateOnLoad (userOnLoadFn : Option String) : List OnLoadStmt :=
  [.registerPanicHook] ++
    (match userOnLoadFn with
     | some f => [.callUserFn f]
     | none => [])

end Jaffi

open Jaffi

/-- C1: evaluation of the ABI escaping at the claim's examples and at a
failing input.  Escaping `p.q.r.A` yields `p_q_r_A` and escaping U+2764
yields `_02764`, as claimed; but for the supplementary character U+1F980
the code emits `_01f980`, the minimal hex digits of the Unicode scalar
value, while the claim (and the JNI rule quoted in the source's own doc
comment, which escapes the two UTF-16 code units of a surrogate pair
separately) prescribes `_0d83e_0dd80`. -/
theorem c1_escape_diverges_on_supplementary :
    jniAbiFrom "p.q.r.A" = "p_q_r_A" ∧
    jniAbiFrom (String.mk [Char.ofNat 0x2764]) = "_02764" ∧
    claimEscapeChar (Char.ofNat 0x2764) = "_02764" ∧
    jniAbiFrom (String.mk [Char.ofNat 0x1F980]) = "_01f980" ∧
    claimEscapeChar (Char.ofNat 0x1F980) = "_0d83e_0dd80" ∧
    jniAbiFrom (String.mk [Char.ofNat 0x1F980]) ≠ claimEscapeChar (Char.ofNat 0x1F980) := by
  refine ⟨by decide, by decide, by decide, by decide, by decide, by decide⟩

/-- C4: evaluation of the combined-exception enum generation at two
distinct singleton exception sets.  `generate_exceptions` builds every
enum's variant list from all exception sets (`exception_sets`) instead
of the one set it is generating (`exception_set`), so the enum for the
set containing only `java/lang/Exception` also receives a variant for
`java/io/IOException`, against the claim's "no variants for exceptions
belonging only to other sets". -/
theorem c4_enum_variants_leak_across_sets :
    generatedExceptionEnums [["java/lang/Exception"], ["java/io/IOException"]] =
      [("ExceptionErr", ["Exception", "IOException"]),
       ("IOExceptionErr", ["Exception", "IOException"])] ∧
    claimEnumVariants ["java/lang/Exception"] = ["Exception"] ∧
    generatedEnumVariants [["java/lang/Exception"], ["java/io/IOException"]] ≠
      claimEnumVariants ["java/lang/Exception"] := by
  refine ⟨by decide, by decide, by decide⟩

/-- C8: an array type maps to the supported FFI byte-array type exactly
when it is a 1-dimensional byte array; every other shape maps to the
explicit unsupported placeholder, at the JNI-boundary type and the
Rust-surface type alike, and no third type name is ever produced. -/
theorem c8_only_byte_arrays_supported (a : JavaArray) :
    (a.toJniTypeName = "jaffi_support::arrays::JavaByteArray<'j>" ↔
      a.dimensions = 1 ∧ a.ty = BaseJniTy.jbyte) ∧
    (¬(a.dimensions = 1 ∧ a.ty = BaseJniTy.jbyte) →
      a.toJniTypeName = "jaffi_support::arrays::UnsupportedArray<'j>") ∧
    a.toRsTypeName = a.toJniTypeName ∧
    (a.toJniTypeName = "jaffi_support::arrays::JavaByteArray<'j>" ∨
      a.toJniTypeName = "jaffi_support::arrays::UnsupportedArray<'j>") := by
  obtain ⟨n, t⟩ := a
  by_cases h : n = 1 <;> cases t <;>
    simp_all [JavaArray.toJniTypeName, JavaArray.toRsTypeName]

/-- C8 witness: the 2-dimensional byte array is unsupported and the
1-dimensional byte array is the supported byte-array type. -/
theorem c8_only_byte_arrays_supported_witness :
    JavaArray.toJniTypeName ⟨2, BaseJniTy.jbyte⟩ =
      "jaffi_support::arrays::UnsupportedArray<'j>" ∧
    JavaArray.toJniTypeName ⟨1, BaseJniTy.jbyte⟩ =
      "jaffi_support::arrays::JavaByteArray<'j>" :=
  ⟨(c8_only_byte_arrays_supported ⟨2, BaseJniTy.jbyte⟩).2.1 (by decide),
   (c8_only_byte_arrays_supported ⟨1, BaseJniTy.jbyte⟩).1.mpr ⟨rfl, rfl⟩⟩

/-- C9: when a load-hook function name is configured, the generated
library-load entry point invokes it exactly once, alongside the panic
handler registration; when none is configured, the entry point only
registers the panic handler.  (The `OnLoadStmt.callUserFn` action
carries no error channel: the interface is infallible.) -/
theorem c9_on_load_hook :
    generateOnLoad none = [OnLoadStmt.registerPanicHook] ∧
    ∀ f, (generateOnLoad (some f)).count (OnLoadStmt.callUserFn f) = 1 ∧
      OnLoadStmt.registerPanicHook ∈ generateOnLoad (some f) := by
  refine ⟨rfl, fun f => ⟨?_, by simp [generateOnLoad]⟩⟩
  simp [generateOnLoad, List.count_cons]

/-- C5: for every list of generated marker variants, a thrown object
matching none of them makes the combined catch return the original
thrown object unchanged in the error branch; each individual marker's
catch returns the marker on a non-null instance-of match and gives back
the same throwable otherwise; and a match on the first tried marker is
returned at once, reflecting the fixed enumeration order. -/
theorem c5_catch_passthrough (T : Type) (isNull : T → Bool)
    (isInstanceOf : T → String → Bool) (variants : List String) (t : T) :
    ((∀ c ∈ variants, ¬(isNull t = false ∧ isInstanceOf t c = true)) →
      combinedCatch isNull isInstanceOf variants t = Except.error t) ∧
    (∀ c, (isNull t = false ∧ isInstanceOf t c = true →
        markerCatch isNull isInstanceOf c t = Except.ok ()) ∧
      (¬(isNull t = false ∧ isInstanceOf t c = true) →
        markerCatch isNull isInstanceOf c t = Except.error t)) ∧
    (∀ c cs, isNull t = false → isInstanceOf t c = true →
      combinedCatch isNull isInstanceOf (c :: cs) t = Except.ok c) := by
  have hm : ∀ c, (isNull t = false ∧ isInstanceOf t c = true →
        markerCatch isNull isInstanceOf c t = Except.ok ()) ∧
      (¬(isNull t = false ∧ isInstanceOf t c = true) →
        markerCatch isNull isInstanceOf c t = Except.error t) := by
    intro c
    constructor
    · rintro ⟨h1, h2⟩
      simp [markerCatch, h1, h2]
    · intro h
      cases hn : isNull t <;> cases hi : isInstanceOf t c <;>
        simp_all [markerCatch]
  refine ⟨?_, hm, ?_⟩
  · induction variants with
    | nil => intro _; simp [combinedCatch]
    | cons c cs ih =>
      intro hall
      have hc := (hm c).2 (hall c (by simp))
      simp only [combinedCatch, hc]
      exact ih (fun x hx => hall x (by simp [hx]))
  · intro c cs h1 h2
    simp [combinedCatch, markerCatch, h1, h2]

/-- C5 witness: a concrete throwable (reference 7, non-null, instance of
nothing) passes through the combined catch of one marker unchanged. -/
theorem c5_catch_passthrough_witness :
    combinedCatch (T := Nat) (fun n => n = 0) (fun _ _ => false)
      ["java/lang/Exception"] 7 = Except.error 7 :=
  (c5_catch_passthrough Nat (fun n => n = 0) (fun _ _ => false)
      ["java/lang/Exception"] 7).1 (by decide)

/-- C6: a selected constructor method's export-name key is the
synthesized `new_<declaring class>` (so the occurrence counting that
drives overload disambiguation sees the renamed key, under which the
constructor's own occurrence is counted), and its synthesized return
type is an object reference to the declaring class, never void. -/
theorem c6_constructor_rename_and_result (thisClass : String) (ms : List MethodSig)
    (m : MethodSig) (hm : m ∈ ms) (hc : m.name = "<init>") :
    methodKey thisClass m = "new_" ++ thisClass ∧
    nameCount thisClass ms (methodKey thisClass m) =
      (ms.map (methodKey thisClass)).count ("new_" ++ thisClass) ∧
    1 ≤ nameCount thisClass ms (methodKey thisClass m) ∧
    resultOf thisClass m =
      JniReturn.val (JniType.ty (BaseJniTy.jobject (objectTypeFrom thisClass))) ∧
    resultOf thisClass m ≠ JniReturn.void := by
  have hkey : methodKey thisClass m = "new_" ++ thisClass := by simp [methodKey, hc]
  refine ⟨hkey, by rw [hkey]; rfl, ?_, ?_, ?_⟩
  · have hmem : methodKey thisClass m ∈ ms.map (methodKey thisClass) :=
      List.mem_map_of_mem _ hm
    exact List.count_pos_iff.mpr hmem
  · simp [resultOf, hc]
  · simp [resultOf, hc]

/-- C6 witness: a concrete constructor of class `p/q/r/A`. -/
theorem c6_constructor_rename_and_result_witness :
    methodKey "p/q/r/A" ⟨"<init>", "()V", ReturnDescriptor.void⟩ = "new_p/q/r/A" ∧
    resultOf "p/q/r/A" ⟨"<init>", "()V", ReturnDescriptor.void⟩ =
      JniReturn.val (JniType.ty (BaseJniTy.jobject (ObjectType.object "p/q/r/A"))) := by
  have h := c6_constructor_rename_and_result "p/q/r/A"
    [⟨"<init>", "()V", ReturnDescriptor.void⟩]
    ⟨"<init>", "()V", ReturnDescriptor.void⟩ (by simp) rfl
  exact ⟨h.1, h.2.2.2.1.trans (by decide)⟩

/-- Helper: on a descriptor beginning with an opening parenthesis, the
slice taken by `FuncAbi::with_descriptor` equals the text strictly
between the opening parenthesis and the first closing parenthesis. -/
theorem stripParam_eq_claimSlice (d : String) (h : d.data.head? = some '(') :
    stripParamDescriptor d = claimParamSlice d := by
  obtain ⟨cs, hd⟩ : ∃ cs, d.data = '(' :: cs := by
    cases hcase : d.data with
    | nil => rw [hcase] at h; cases h
    | cons a l =>
      rw [hcase] at h
      simp only [List.head?_cons, Option.some.injEq] at h
      exact ⟨l, by rw [h]⟩
  simp [stripParamDescriptor, claimParamSlice, hd]

/-- C2: overload disambiguation is all-or-nothing per export-name key
(after constructor renaming): when the key's occurrence count over the
selected methods exceeds 1, the exported ABI name is the short exported
name with the escaped parameter-descriptor slice (the text strictly
between the signature's opening parenthesis and first closing
parenthesis) appended after two underscores; when the count is 1 it is
exactly the short form; and a selected method's own key always has
count at least 1. -/
theorem c2_overload_all_or_nothing (thisClass : String) (ms : List MethodSig)
    (m : MethodSig) (hm : m ∈ ms)
    (hd : (mkJavaDesc m.descriptorStr).data.head? = some '(') :
    (1 < nameCount thisClass ms (methodKey thisClass m) →
      fnExportFfiName thisClass ms m =
        withClass (jniAbiFrom (methodKey thisClass m)) thisClass ++ "__" ++
          jniAbiFrom (claimParamSlice (mkJavaDesc m.descriptorStr))) ∧
    (nameCount thisClass ms (methodKey thisClass m) = 1 →
      fnExportFfiName thisClass ms m =
        withClass (jniAbiFrom (methodKey thisClass m)) thisClass) ∧
    1 ≤ nameCount thisClass ms (methodKey thisClass m) := by
  refine ⟨?_, ?_, ?_⟩
  · intro hgt
    have hif : fnFfiName thisClass ms m =
        withDescriptor (jniAbiFrom (methodKey thisClass m)) (mkJavaDesc m.descriptorStr) := by
      simp [fnFfiName, hgt]
    rw [fnExportFfiName, hif, withDescriptor, stripParam_eq_claimSlice _ hd, withClass,
      withClass]
    simp [String.append_assoc]
  · intro heq
    have hif : fnFfiName thisClass ms m = jniAbiFrom (methodKey thisClass m) := by
      simp [fnFfiName, heq]
    rw [fnExportFfiName, hif]
  · have hmem : methodKey thisClass m ∈ ms.map (methodKey thisClass) :=
      List.mem_map_of_mem _ hm
    exact List.count_pos_iff.mpr hmem

/-- C2 witness: the two overloads of `f` from the source's own unit
test; the first overload's exported name carries the escaped descriptor
suffix and evaluates to `Java_p_q_r_A_f__ILjava_lang_String_2`. -/
theorem c2_overload_all_or_nothing_witness :
    1 < nameCount "p/q/r/A"
        [⟨"f", "(ILjava.lang.String;)D", ReturnDescriptor.ret (FieldType.ty (CafeTy.base BaseType.double))⟩,
         ⟨"f", "(ILjava.lang.Object;)D", ReturnDescriptor.ret (FieldType.ty (CafeTy.base BaseType.double))⟩]
        (methodKey "p/q/r/A"
          ⟨"f", "(ILjava.lang.String;)D", ReturnDescriptor.ret (FieldType.ty (CafeTy.base BaseType.double))⟩) ∧
    fnExportFfiName "p/q/r/A"
        [⟨"f", "(ILjava.lang.String;)D", ReturnDescriptor.ret (FieldType.ty (CafeTy.base BaseType.double))⟩,
         ⟨"f", "(ILjava.lang.Object;)D", ReturnDescriptor.ret (FieldType.ty (CafeTy.base BaseType.double))⟩]
        ⟨"f", "(ILjava.lang.String;)D", ReturnDescriptor.ret (FieldType.ty (CafeTy.base BaseType.double))⟩ =
      withClass (jniAbiFrom (methodKey "p/q/r/A"
          ⟨"f", "(ILjava.lang.String;)D", ReturnDescriptor.ret (FieldType.ty (CafeTy.base BaseType.double))⟩)) "p/q/r/A" ++
        "__" ++
        jniAbiFrom (claimParamSlice (mkJavaDesc "(ILjava.lang.String;)D")) ∧
    fnExportFfiName "p/q/r/A"
        [⟨"f", "(ILjava.lang.String;)D", ReturnDescriptor.ret (FieldType.ty (CafeTy.base BaseType.double))⟩,
         ⟨"f", "(ILjava.lang.Object;)D", ReturnDescriptor.ret (FieldType.ty (CafeTy.base BaseType.double))⟩]
        ⟨"f", "(ILjava.lang.String;)D", ReturnDescriptor.ret (FieldType.ty (CafeTy.base BaseType.double))⟩ =
      "Java_p_q_r_A_f__ILjava_lang_String_2" :=
  ⟨by decide,
   (c2_overload_all_or_nothing "p/q/r/A" _ _ (by simp) (by decide)).1 (by decide),
   by decide⟩

/-- Helper: the root scan returns no hit over roots that are neither a
directory containing the class file nor a jar file. -/
theorem searchRoots_skip_all (fs : FsModel) (cls : String) (roots : List String)
    (h : ∀ x ∈ roots, ¬(fs.isDir x = true ∧ lookupFromPath fs x cls = true) ∧
      ¬(fs.isFile x = true ∧ fs.ext x = "jar")) :
    searchRoots fs cls roots = Except.ok none := by
  induction roots with
  | nil => rfl
  | cons r rs ih =>
    obtain ⟨h1, h2⟩ := h r (by simp)
    have hb1 : (fs.isDir r && lookupFromPath fs r cls) = false := by
      cases hd : fs.isDir r <;> cases hl : lookupFromPath fs r cls <;> simp_all
    have hb2 : (fs.isFile r && decide (fs.ext r = "jar")) = false := by
      cases hf : fs.isFile r <;> by_cases he : fs.ext r = "jar" <;> simp_all
    simp only [searchRoots, hb1, hb2, Bool.false_eq_true, if_false]
    exact ih (fun x hx => h x (by simp [hx]))

/-- Helper: the root scan returns the join of the first root that is a
directory containing the class file, skipping the earlier roots. -/
theorem searchRoots_first_hit (fs : FsModel) (cls : String) (pre post : List String)
    (r : String)
    (hpre : ∀ x ∈ pre, ¬(fs.isDir x = true ∧ lookupFromPath fs x cls = true) ∧
      ¬(fs.isFile x = true ∧ fs.ext x = "jar"))
    (hdir : fs.isDir r = true) (hfile : lookupFromPath fs r cls = true) :
    searchRoots fs cls (pre ++ r :: post) = Except.ok (some (joinPath r cls)) := by
  induction pre with
  | nil =>
    simp only [List.nil_append, searchRoots, hdir, hfile, Bool.and_self, if_true]
  | cons x xs ih =>
    obtain ⟨h1, h2⟩ := hpre x (by simp)
    have hb1 : (fs.isDir x && lookupFromPath fs x cls) = false := by
      cases hd : fs.isDir x <;> cases hl : lookupFromPath fs x cls <;> simp_all
    have hb2 : (fs.isFile x && decide (fs.ext x = "jar")) = false := by
      cases hf : fs.isFile x <;> by_cases he : fs.ext x = "jar" <;> simp_all
    simp only [List.cons_append, searchRoots, hb1, hb2, Bool.false_eq_true, if_false]
    exact ih (fun y hy => hpre y (by simp [hy]))

/-- Helper: an empty configured classpath behaves exactly as the default
classpath (the current directory). -/
theorem searchClasspath_default (fs : FsModel) (classes : List String) :
    searchClasspath fs [] classes = searchClasspath fs defaultClasspath classes := by
  induction classes with
  | nil => rfl
  | cons c cs ih =>
    simp only [searchClasspath, List.isEmpty_nil, if_true, defaultClasspath,
      List.isEmpty_cons, Bool.false_eq_true, if_false]
    cases hsr : searchRoots fs (classToPath c) ["."] with
    | error e => rfl
    | ok o =>
      cases o with
      | none => rfl
      | some p => rw [ih]; rfl

/-- C7: the class lookup scans the search roots in the caller-specified
order (an empty configured list behaving as the default, the current
directory), returns the class-file path under the first root containing
it (the descriptor with package separators replaced by path separators
plus the `.class` extension), and fails with an error whose message
includes the searched class path when no root contains the file. -/
theorem c7_classpath_search (fs : FsModel) (roots pre post : List String) (r c : String) :
    (∀ cs, searchClasspath fs [] cs = searchClasspath fs defaultClasspath cs) ∧
    ((∀ x ∈ pre, ¬(fs.isDir x = true ∧ lookupFromPath fs x (classToPath c) = true) ∧
        ¬(fs.isFile x = true ∧ fs.ext x = "jar")) →
      fs.isDir r = true → lookupFromPath fs r (classToPath c) = true →
      searchClasspath fs (pre ++ r :: post) [c] =
        Except.ok [joinPath r (classToPath c)]) ∧
    ((∀ x ∈ (if roots.isEmpty then defaultClasspath else roots),
        ¬(fs.isDir x = true ∧ lookupFromPath fs x (classToPath c) = true) ∧
        ¬(fs.isFile x = true ∧ fs.ext x = "jar")) →
      ∃ msg, searchClasspath fs roots [c] = Except.error (SearchError.notFound msg) ∧
        msg = "could not find class in classpath: " ++ classToPath c ∧
        ∃ p, msg.data = p ++ (classToPath c).data) := by
  refine ⟨searchClasspath_default fs, ?_, ?_⟩
  · intro hpre hdir hfile
    have hne : (pre ++ r :: post).isEmpty = false := by cases pre <;> rfl
    have hsr := searchRoots_first_hit fs (classToPath c) pre post r hpre hdir hfile
    simp only [searchClasspath, hne, Bool.false_eq_true, if_false, hsr]
  · intro hall
    have hsr := searchRoots_skip_all fs (classToPath c)
      (if roots.isEmpty then defaultClasspath else roots) hall
    refine ⟨"could not find class in classpath: " ++ classToPath c, ?_, rfl,
      ("could not find class in classpath: ").data, ?_⟩
    · simp only [searchClasspath, hsr]
    · simp [String.data_append]

/-- C7 witness: with two directory roots `cp1` and `cp2` and the class
file present only under `cp2`, the search for `net.bluejekyll.Foo`
returns the path under `cp2`. -/
theorem c7_classpath_search_witness :
    searchClasspath
        ⟨fun p => p == "cp1" || p == "cp2",
         fun p => p == "cp2/net/bluejekyll/Foo.class", fun _ => ""⟩
        ["cp1", "cp2"] ["net.bluejekyll.Foo"] =
      Except.ok [joinPath "cp2" (classToPath "net.bluejekyll.Foo")] ∧
    joinPath "cp2" (classToPath "net.bluejekyll.Foo") = "cp2/net/bluejekyll/Foo.class" :=
  ⟨(c7_classpath_search
      ⟨fun p => p == "cp1" || p == "cp2",
       fun p => p == "cp2/net/bluejekyll/Foo.class", fun _ => ""⟩
      ["cp1", "cp2"] ["cp1"] [] "cp2" "net.bluejekyll.Foo").2.1
      (by decide) (by decide) (by decide),
   by decide⟩

/-- C10 counterexample: `self` is one of the 37 listed keywords, yet
`make_ident` emits it as `r_self`, not in raw `r#` form, because the
illegal-word check runs first and `self` is also an illegal word. -/
theorem c10_keyword_self_not_raw :
    "self" ∈ KEYWORDS ∧ makeIdent "self" = "r_self" ∧ makeIdent "self" ≠ "r#self" := by
  refine ⟨by decide, by decide, by decide⟩

/-- C10 amended: each of the 37 listed keywords that is not also an
illegal word is emitted in raw `r#` form; each illegal word (`_`,
`super`, `self`, `Self`, `crate` and the empty string — the illegal-word
check runs first, so this covers the keywords `self` and `crate` too) is
prefixed with `r_`; every other input is emitted unchanged. -/
theorem c10_make_ident_amended :
    (∀ s ∈ KEYWORDS, s ∉ ILLEGAL_WORDS → makeIdent s = "r#" ++ s) ∧
    (∀ s ∈ ILLEGAL_WORDS, makeIdent s = "r_" ++ s) ∧
    (∀ s, s ∉ KEYWORDS → s ∉ ILLEGAL_WORDS → makeIdent s = s) := by
  refine ⟨by decide, by decide, fun s hk hi => ?_⟩
  have h1 : isIllegal s = false := by
    simp only [isIllegal]
    simpa using hi
  have h2 : containsKeyword s = false := by
    simp only [containsKeyword]
    simpa using hk
  simp [makeIdent, h1, h2]

/-- C10 amended witness: `fn` is a keyword and not illegal, `_` is
illegal, `foo` is neither. -/
theorem c10_make_ident_amended_witness :
    makeIdent "fn" = "r#fn" ∧ makeIdent "_" = "r__" ∧ makeIdent "foo" = "foo" :=
  ⟨c10_make_ident_amended.1 "fn" (by decide) (by decide),
   c10_make_ident_amended.2.1 "_" (by decide),
   c10_make_ident_amended.2.2 "foo" (by decide) (by decide)⟩

/-- Helper: the new-type fold adds only elements of the processed list
to the known-type set, pushes only elements of that list onto the given
stack, keeps every element already on the stack, and grows the stack by
at most the list's length. -/
theorem addNewTypes_spec (l : List String) : ∀ ts sk : List String,
    (∀ x ∈ (addNewTypes l (ts, sk)).1, x ∈ ts ∨ x ∈ l) ∧
    (∀ x ∈ (addNewTypes l (ts, sk)).2, x ∈ sk ∨ x ∈ l) ∧
    (∀ x ∈ sk, x ∈ (addNewTypes l (ts, sk)).2) ∧
    (addNewTypes l (ts, sk)).2.length ≤ sk.length + l.length := by
  induction l with
  | nil =>
    intro ts sk
    simp [addNewTypes]
  | cons ty l ih =>
    intro ts sk
    have hcons : ∀ acc : List String × List String, addNewTypes (ty :: l) acc =
        addNewTypes l (if ty ∈ acc.1 then acc else (ty :: acc.1, ty :: acc.2)) :=
      fun acc => rfl
    by_cases hty : ty ∈ ts
    · rw [hcons (ts, sk)]
      simp only [if_pos hty]
      obtain ⟨h1, h2, h3, h4⟩ := ih ts sk
      refine ⟨fun x hx => ?_, fun x hx => ?_, h3, by simpa using Nat.le_succ_of_le h4⟩
      · rcases h1 x hx with h | h
        · exact Or.inl h
        · exact Or.inr (by simp [h])
      · rcases h2 x hx with h | h
        · exact Or.inl h
        · exact Or.inr (by simp [h])
    · rw [hcons (ts, sk)]
      simp only [if_neg hty]
      obtain ⟨h1, h2, h3, h4⟩ := ih (ty :: ts) (ty :: sk)
      refine ⟨fun x hx => ?_, fun x hx => ?_, fun x hx => h3 x (by simp [hx]), ?_⟩
      · rcases h1 x hx with h | h
        · rcases List.mem_cons.mp h with h | h
          · exact Or.inr (by simp [h])
          · exact Or.inl h
        · exact Or.inr (by simp [h])
      · rcases h2 x hx with h | h
        · rcases List.mem_cons.mp h with h | h
          · exact Or.inr (by simp [h])
          · exact Or.inl h
        · exact Or.inr (by simp [h])
      · have := h4
        simp only [List.length_cons] at this ⊢
        omega

/-- Helper: the interface fold pushes only members of the known-type
set, keeps every element already on the stack, and grows the stack by at
most the list's length. -/
theorem pushKnownIfaces_spec (l : List String) : ∀ types sk : List String,
    (∀ x ∈ pushKnownIfaces l types sk, x ∈ sk ∨ x ∈ types) ∧
    (∀ x ∈ sk, x ∈ pushKnownIfaces l types sk) ∧
    (pushKnownIfaces l types sk).length ≤ sk.length + l.length := by
  induction l with
  | nil =>
    intro types sk
    refine ⟨fun x hx => Or.inl ?_, fun x hx => ?_, ?_⟩ <;>
      simp_all [pushKnownIfaces]
  | cons i l ih =>
    intro types sk
    have hcons : ∀ sk : List String, pushKnownIfaces (i :: l) types sk =
        pushKnownIfaces l types (if i ∈ types then i :: sk else sk) :=
      fun sk => rfl
    by_cases hi : i ∈ types
    · rw [hcons sk]
      simp only [if_pos hi]
      obtain ⟨h1, h2, h3⟩ := ih types (i :: sk)
      refine ⟨fun x hx => ?_, fun x hx => h2 x (by simp [hx]), ?_⟩
      · rcases h1 x hx with h | h
        · rcases List.mem_cons.mp h with h | h
          · exact Or.inr (h ▸ hi)
          · exact Or.inl h
        · exact Or.inr h
      · simp only [List.length_cons] at h3 ⊢
        omega
    · rw [hcons sk]
      simp only [if_neg hi]
      obtain ⟨h1, h2, h3⟩ := ih types sk
      exact ⟨h1, h2, by simpa using Nat.le_succ_of_le h3⟩

/-- Helper: one processed iteration keeps the known-type set and the
work stack inside the universe `U`, keeps the remaining stack, and grows
the stack by at most the push bound `B`. -/
theorem resolveStep_spec (env : ResolverEnv) (U : List String) (B : Nat)
    (hnew : ∀ d ∈ U, ∀ x ∈ env.newTypes d, x ∈ U)
    (hB : ∀ d ∈ U, (env.newTypes d).length + (env.interfaces d).length ≤ B)
    (d : String) (hd : d ∈ U) (rest types : List String)
    (hrest : ∀ x ∈ rest, x ∈ U) (htypes : ∀ x ∈ types, x ∈ U) :
    (∀ x ∈ (resolveStep env d rest types).1, x ∈ U) ∧
    (∀ x ∈ (resolveStep env d rest types).2, x ∈ U) ∧
    (∀ x ∈ rest, x ∈ (resolveStep env d rest types).2) ∧
    (resolveStep env d rest types).2.length ≤ rest.length + B := by
  by_cases hw : env.wrap d
  · obtain ⟨ha1, ha2, ha3, ha4⟩ := addNewTypes_spec (env.newTypes d) types rest
    obtain ⟨hp1, hp2, hp3⟩ := pushKnownIfaces_spec (env.interfaces d)
      (addNewTypes (env.newTypes d) (types, rest)).1
      (addNewTypes (env.newTypes d) (types, rest)).2
    have hstep : resolveStep env d rest types =
        ((addNewTypes (env.newTypes d) (types, rest)).1,
         pushKnownIfaces (env.interfaces d)
           (addNewTypes (env.newTypes d) (types, rest)).1
           (addNewTypes (env.newTypes d) (types, rest)).2) := by
      simp [resolveStep, hw]
    rw [hstep]
    dsimp only
    have htys : ∀ x ∈ (addNewTypes (env.newTypes d) (types, rest)).1, x ∈ U := by
      intro x hx
      rcases ha1 x hx with h | h
      · exact htypes x h
      · exact hnew d hd x h
    have hstk : ∀ x ∈ (addNewTypes (env.newTypes d) (types, rest)).2, x ∈ U := by
      intro x hx
      rcases ha2 x hx with h | h
      · exact hrest x h
      · exact hnew d hd x h
    refine ⟨htys, fun x hx => ?_, fun x hx => hp2 x (ha3 x hx), ?_⟩
    · rcases hp1 x hx with h | h
      · exact hstk x h
      · exact htys x h
    · have hBd := hB d hd
      omega
  · have hstep : resolveStep env d rest types = (types, rest) := by
      simp [resolveStep, hw]
    rw [hstep]
    dsimp only
    exact ⟨htypes, hrest, fun x hx => hx, Nat.le_add_right _ _⟩

/-- Helper: with enough fuel the worklist loop completes, its output has
no duplicate descriptor, and every descriptor on the stack (and every
record already emitted) ends in the output. -/
theorem resolveLoop_total (env : ResolverEnv) (U : List String) (B : Nat)
    (hnew : ∀ d ∈ U, ∀ x ∈ env.newTypes d, x ∈ U)
    (hB : ∀ d ∈ U, (env.newTypes d).length + (env.interfaces d).length ≤ B) :
    ∀ fuel st, resolveMeasure U B st < fuel →
      (∀ x ∈ st.stack, x ∈ U) → (∀ x ∈ st.types, x ∈ U) →
      st.out.Nodup → (∀ x, x ∈ st.out ↔ x ∈ st.generated) →
      ∃ res, resolveLoop env fuel st = some res ∧ res.Nodup ∧
        (∀ x ∈ st.out, x ∈ res) ∧ (∀ x ∈ st.stack, x ∈ res) := by
  intro fuel
  induction fuel with
  | zero =>
    intro st hlt
    exact absurd hlt (Nat.not_lt_zero _)
  | succ n ih =>
    rintro ⟨stack, types, generated, out⟩ hlt hstack htypes hnodup hog
    match stack, hlt, hstack with
    | [], _, _ =>
      exact ⟨out, rfl, hnodup, fun x hx => hx, by simp⟩
    | d :: rest, hlt, hstack =>
      by_cases hdg : d ∈ generated
      · have hlt' : resolveMeasure U B ⟨rest, types, generated, out⟩ < n := by
          simp only [resolveMeasure, List.length_cons] at hlt ⊢
          omega
        obtain ⟨res, hres, hnd, hor, hsr⟩ := ih ⟨rest, types, generated, out⟩ hlt'
          (fun x hx => hstack x (by simp [hx])) htypes hnodup hog
        refine ⟨res, ?_, hnd, hor, ?_⟩
        · simp only [resolveLoop, if_pos hdg]
          exact hres
        · intro x hx
          rcases List.mem_cons.mp hx with h | h
          · exact hor x ((hog x).mpr (h ▸ hdg))
          · exact hsr x h
      · have hdU : d ∈ U := hstack d (by simp)
        obtain ⟨hs1, hs2, hs3, hs4⟩ := resolveStep_spec env U B hnew hB d hdU rest types
          (fun x hx => hstack x (by simp [hx])) htypes
        have hdmem : d ∈ U.toFinset \ generated.toFinset := by
          simp only [Finset.mem_sdiff, List.mem_toFinset]
          exact ⟨hdU, hdg⟩
        have hcard : (U.toFinset \ (d :: generated).toFinset).card + 1 =
            (U.toFinset \ generated.toFinset).card := by
          rw [List.toFinset_cons, Finset.sdiff_insert,
            Finset.card_erase_of_mem hdmem]
          have := Finset.card_pos.mpr ⟨d, hdmem⟩
          omega
        have hlt' : resolveMeasure U B
            ⟨(resolveStep env d rest types).2, (resolveStep env d rest types).1,
              d :: generated, out ++ [d]⟩ < n := by
          simp only [resolveMeasure, List.length_cons] at hlt ⊢
          have hmul : ((U.toFinset \ (d :: generated).toFinset).card + 1) * (B + 1) =
              (U.toFinset \ (d :: generated).toFinset).card * (B + 1) + (B + 1) := by
            ring
          rw [← hcard] at hlt
          omega
        have hdout : d ∉ out := fun hdo => hdg ((hog d).mp hdo)
        have hnodup' : (out ++ [d]).Nodup := by
          simp [List.nodup_append, hnodup, hdout]
        have hog' : ∀ x, x ∈ out ++ [d] ↔ x ∈ d :: generated := by
          intro x
          simp only [List.mem_append, List.mem_singleton, List.mem_cons]
          rw [hog x]
          tauto
        obtain ⟨res, hres, hnd, hor, hsr⟩ := ih
          ⟨(resolveStep env d rest types).2, (resolveStep env d rest types).1,
            d :: generated, out ++ [d]⟩
          hlt' hs2 hs1 hnodup' hog'
        refine ⟨res, ?_, hnd, fun x hx => hor x (by simp [hx]), ?_⟩
        · simp only [resolveLoop, if_neg hdg]
          exact hres
        · intro x hx
          rcases List.mem_cons.mp hx with h | h
          · exact hor x (by simp [h])
          · exact hsr x (hs3 x h)

/-- C3: for every finite seed set and every (possibly cyclic) graph of
type references among classes — any wrap set, referenced-type map and
interface map over a finite universe `U` of descriptors with pushes
bounded by `B` — the worklist resolver of `generate_support_types`
terminates (some fuel suffices), its output contains no descriptor
twice (a popped descriptor already in the already-generated set is
skipped, so each distinct descriptor contributes exactly one `Object`
record), and every seed descriptor is processed. -/
theorem c3_resolver_terminates_once (env : ResolverEnv) (seeds U : List String) (B : Nat)
    (hseeds : ∀ x ∈ seeds, x ∈ U)
    (hnew : ∀ d ∈ U, ∀ x ∈ env.newTypes d, x ∈ U)
    (hB : ∀ d ∈ U, (env.newTypes d).length + (env.interfaces d).length ≤ B) :
    ∃ fuel res, resolveLoop env fuel (initialResolverState seeds) = some res ∧
      res.Nodup ∧ ∀ x ∈ seeds, x ∈ res := by
  obtain ⟨res, h1, h2, _, h4⟩ := resolveLoop_total env U B hnew hB
    (resolveMeasure U B (initialResolverState seeds) + 1) (initialResolverState seeds)
    (Nat.lt_succ_self _) hseeds hseeds (by simp [initialResolverState])
    (by simp [initialResolverState])
  exact ⟨_, res, h1, h2, h4⟩

/-- C3 witness: two mutually referencing classes `a` and `b`, seeded
with `a` alone; the resolver terminates with a duplicate-free output
containing `a`. -/
theorem c3_resolver_terminates_once_witness :
    ∃ fuel res,
      resolveLoop
        ⟨fun _ => true,
         fun d => if d = "a" then ["b"] else if d = "b" then ["a"] else [],
         fun _ => []⟩
        fuel (initialResolverState ["a"]) = some res ∧
      res.Nodup ∧ ∀ x ∈ ["a"], x ∈ res :=
  c3_resolver_terminates_once
    ⟨fun _ => true,
     fun d => if d = "a" then ["b"] else if d = "b" then ["a"] else [],
     fun _ => []⟩
    ["a"] ["a", "b"] 1 (by decide) (by decide) (by decide)
